import Mathlib

/-!
Terminal Snake game (`snake.cpp`): state model and verified properties

Shallow embedding of the game-state part of `snake.cpp`.

* C++ `int` values are modelled as mathematical integers (`Int`).  All values the game
  handles are bounded by the terminal size; signed overflow is undefined behaviour in
  C++ and lies outside the model.
* `std::vector<Coordinates>` is modelled as `List Coordinates`, head of the snake first.
* Member functions become functions on the `Snake` / `Food` records.  Calls whose C++
  behaviour is undefined on an empty vector (`front()`, `back()`, `begin() + 1`) return
  `none`.
* The ncurses globals `COLS` and `LINES` are explicit parameters, the clock readings and
  the values drawn from the random distributions are explicit inputs of a frame.
* Terminal output (`mvprintw`, `clear`, `refresh`) does not touch the game state and is
  not modelled.
-/

namespace SnakeGame

/-! ## Data model -/

/-- The `struct Coordinates` of the source (lines 15-19). -/
structure Coordinates where
  x : Int
  y : Int
deriving DecidableEq

/-- The data members of `class Snake` (lines 89-92). -/
structure Snake where
  x_dir : Int
  y_dir : Int
  body : List Coordinates
deriving DecidableEq

/-- The constructor `Snake::Snake()` (line 24). -/
def Snake.init : Snake :=
  { x_dir := 1, y_dir := 0, body := [⟨10, 5⟩, ⟨9, 5⟩, ⟨8, 5⟩] }

/-- The accessor `Snake::getBody` (lines 26-29). -/
def Snake.getBody (s : Snake) : List Coordinates :=
  s.body

/-- The accessor `Snake::getHead` (lines 31-34): `body.front()`, undefined on an empty body. -/
def Snake.getHead (s : Snake) : Option Coordinates :=
  s.body.head?

/-- The method `Snake::setDirection` (lines 36-43). -/
def Snake.setDirection (s : Snake) (x y : Int) : Snake :=
  if (x ≠ 0 ∧ s.x_dir = 0) ∨ (y ≠ 0 ∧ s.y_dir = 0) then
    { s with x_dir := x, y_dir := y }
  else
    s

/-- Lines 48-57 of `Snake::move`: the new head `head + direction`, wrapped at the edges. -/
def Snake.newHead (head : Coordinates) (x_dir y_dir COLS LINES : Int) : Coordinates :=
  let newHead : Coordinates := { x := head.x + x_dir, y := head.y + y_dir }
  let newHead : Coordinates :=
    if newHead.x ≤ 0 then { newHead with x := COLS - 1 }
    else if newHead.x ≥ COLS then { newHead with x := 1 }
    else newHead
  let newHead : Coordinates :=
    if newHead.y ≤ 0 then { newHead with y := LINES - 2 }
    else if newHead.y ≥ LINES - 1 then { newHead with y := 1 }
    else newHead
  newHead

/-- The method `Snake::move` (lines 45-63): insert the new head at the front, pop the back. -/
def Snake.move (s : Snake) (COLS LINES : Int) : Option Snake :=
  match s.getHead with
  | none => none
  | some head =>
    let newHead := Snake.newHead head s.x_dir s.y_dir COLS LINES
    some { s with body := (newHead :: s.body).dropLast }

/-- The method `Snake::grow` (lines 65-68): `body.push_back(body.back())`. -/
def Snake.grow (s : Snake) : Option Snake :=
  match s.body.getLast? with
  | none => none
  | some back => some { s with body := s.body ++ [back] }

/-- The `for` loop of `Snake::collided` (lines 73-78) over the remaining segments. -/
def Snake.collidedLoop (head : Coordinates) : List Coordinates → Bool
  | [] => false
  | it :: rest =>
    if head.x = it.x ∧ head.y = it.y then true
    else Snake.collidedLoop head rest

/-- The method `Snake::collided` (lines 70-79).  It is not `const` in the source, so the
snake after the call is returned next to the answer. -/
def Snake.collided (s : Snake) : Option (Bool × Snake) :=
  match s.body with
  | [] => none
  | head :: rest => some (Snake.collidedLoop head rest, s)

/-- The method `Snake::reset` (lines 81-87). -/
def Snake.reset (s : Snake) : Snake :=
  { s with body := [⟨10, 5⟩, ⟨9, 5⟩, ⟨8, 5⟩], x_dir := 1, y_dir := 0 }

/-- The data member of `class Food` (line 118). -/
structure Food where
  food : Coordinates
deriving DecidableEq

/-- The closed interval `[a, b]` of a `std::uniform_int_distribution<int>`. -/
structure UniformIntDistribution where
  a : Int
  b : Int
deriving DecidableEq

/-- A call of the distribution may return `r`: any integer of its closed interval. -/
def UniformIntDistribution.yields (d : UniformIntDistribution) (r : Int) : Prop :=
  d.a ≤ r ∧ r ≤ d.b

instance (d : UniformIntDistribution) (r : Int) : Decidable (d.yields r) := by
  unfold UniformIntDistribution.yields
  infer_instance

/-- The distribution `distx` of `Food::respawn` (line 105). -/
def Food.distx (COLS : Int) : UniformIntDistribution :=
  { a := 1, b := COLS - 2 }

/-- The distribution `disty` of `Food::respawn` (line 106). -/
def Food.disty (LINES : Int) : UniformIntDistribution :=
  { a := 1, b := LINES - 2 }

/-- The method `Food::respawn` (lines 103-110); `rx` and `ry` are the values returned by
`distx(rnd_engine())` and `disty(rnd_engine())`. -/
def Food.respawn (f : Food) (rx ry : Int) : Food :=
  { f with food := { x := rx, y := ry } }

/-- The constructor `Food::Food()` (lines 98-101): a respawn of the default-initialised
member. -/
def Food.init (rx ry : Int) : Food :=
  Food.respawn { food := { x := 0, y := 0 } } rx ry

/-- The accessor `Food::getPos` (lines 112-115). -/
def Food.getPos (f : Food) : Coordinates :=
  f.food

/-! ## Sequences of snake operations -/

/-- One call of a state-changing method of `Snake`; `move` carries the terminal size
(`COLS`, `LINES`) at the time of the call. -/
inductive Op where
  | setDirection (x y : Int)
  | move (COLS LINES : Int)
  | grow
  | reset
deriving DecidableEq

/-- The four unit vectors `main` passes to `setDirection` (lines 177-184). -/
def isUnit (x y : Int) : Prop :=
  (x = -1 ∧ y = 0) ∨ (x = 1 ∧ y = 0) ∨ (x = 0 ∧ y = -1) ∨ (x = 0 ∧ y = 1)

instance (x y : Int) : Decidable (isUnit x y) := by
  unfold isUnit
  infer_instance

/-- Every `setDirection` of the operation is called with one of the four unit vectors. -/
def Op.unitArgs : Op → Prop
  | Op.setDirection x y => isUnit x y
  | _ => True

instance (o : Op) : Decidable o.unitArgs := by
  cases o <;> unfold Op.unitArgs <;> infer_instance

/-- Apply one operation to the snake. -/
def Op.apply (o : Op) (s : Snake) : Option Snake :=
  match o with
  | Op.setDirection x y => some (s.setDirection x y)
  | Op.move COLS LINES => s.move COLS LINES
  | Op.grow => s.grow
  | Op.reset => some s.reset

/-- Apply a sequence of operations, first to last. -/
def runOps : List Op → Snake → Option Snake
  | [], s => some s
  | o :: rest, s =>
    match o.apply s with
    | none => none
    | some s1 => runOps rest s1

/-! ## The game loop of `main` -/

/-- The local variables of `main` (lines 166-169); time points are integer millisecond
counts of the steady clock. -/
structure Game where
  snake : Snake
  food : Food
  score : Int
  lastMoveTime : Int
deriving DecidableEq

/-- What one iteration of the loop reads from outside the program. -/
structure FrameInput where
  /-- the key returned by `getch()` (line 174) -/
  ch : Int
  /-- the terminal width during the iteration -/
  COLS : Int
  /-- the terminal height during the iteration -/
  LINES : Int
  /-- the clock reading compared with `moveTime` (line 192) -/
  now1 : Int
  /-- the clock reading stored in `lastMoveTime` (line 195) -/
  now2 : Int
  /-- the value `distx` returns should the food respawn (line 108) -/
  rx : Int
  /-- the value `disty` returns should the food respawn (line 109) -/
  ry : Int
deriving DecidableEq

/-- The character `q`. -/
def KEY_q : Int := 113

/-- The ncurses key code `KEY_DOWN` (octal 0402). -/
def KEY_DOWN : Int := 258

/-- The ncurses key code `KEY_UP` (octal 0403). -/
def KEY_UP : Int := 259

/-- The ncurses key code `KEY_LEFT` (octal 0404). -/
def KEY_LEFT : Int := 260

/-- The ncurses key code `KEY_RIGHT` (octal 0405). -/
def KEY_RIGHT : Int := 261

/-- The four direction tests of `main` (lines 177-184). -/
def inputStep (g : Game) (i : FrameInput) : Game :=
  let snake := g.snake
  let snake := if i.ch = KEY_UP then snake.setDirection 0 (-1) else snake
  let snake := if i.ch = KEY_DOWN then snake.setDirection 0 1 else snake
  let snake := if i.ch = KEY_LEFT then snake.setDirection (-1) 0 else snake
  let snake := if i.ch = KEY_RIGHT then snake.setDirection 1 0 else snake
  { g with snake := snake }

/-- The movement gate of `main` (lines 190-196). -/
def moveGate (g : Game) (i : FrameInput) : Option Game :=
  let moveTime := g.lastMoveTime + 100
  if i.now1 > moveTime then
    match g.snake.move i.COLS i.LINES with
    | none => none
    | some snake => some { g with snake := snake, lastMoveTime := i.now2 }
  else
    some g

/-- The eating step of `main` (lines 198-204). -/
def eatingStep (g : Game) (i : FrameInput) : Option Game :=
  match g.snake.getHead with
  | none => none
  | some head =>
    if head.x = g.food.getPos.x ∧ head.y = g.food.getPos.y then
      match g.snake.grow with
      | none => none
      | some snake =>
        some { g with score := g.score + 1, snake := snake, food := g.food.respawn i.rx i.ry }
    else
      some g

/-- The collision step of `main` (lines 206-225). -/
def collisionStep (g : Game) : Option Game :=
  match g.snake.collided with
  | none => none
  | some (true, snake) => some { g with score := 0, snake := snake.reset }
  | some (false, snake) => some { g with snake := snake }

/-- The outcome of one iteration of the `while` loop of `main`. -/
inductive FrameResult where
  | quit
  | next (g : Game)
deriving DecidableEq

/-- One iteration of the `while (true)` loop of `main` (lines 171-227). -/
def frame (g : Game) (i : FrameInput) : Option FrameResult :=
  if i.ch = KEY_q then some FrameResult.quit
  else
    match moveGate (inputStep g i) i with
    | none => none
    | some g1 =>
      match eatingStep g1 i with
      | none => none
      | some g2 =>
        match collisionStep g2 with
        | none => none
        | some g3 => some (FrameResult.next g3)

/-- The state of `main` when the loop is entered (lines 166-169). -/
def Game.start (rx ry now : Int) : Game :=
  { snake := Snake.init, food := Food.init rx ry, score := 0, lastMoveTime := now }

/-- Run the loop of `main` over a list of frame inputs; stops at the first `q`. -/
def mainLoop : Game → List FrameInput → Option Game
  | g, [] => some g
  | g, i :: rest =>
    match frame g i with
    | none => none
    | some FrameResult.quit => some g
    | some (FrameResult.next g1) => mainLoop g1 rest

/-! ## Shared lemmas -/

/-- The state invariant of every reachable snake: an axis-aligned unit direction and a
body of at least three segments. -/
def Snake.wellFormed (s : Snake) : Prop :=
  isUnit s.x_dir s.y_dir ∧ 3 ≤ s.body.length

/-- The pair of values the two distributions of `Food::respawn` may return on a terminal
of the given size (lines 105-109). -/
def Food.respawnDraws (COLS LINES rx ry : Int) : Prop :=
  (Food.distx COLS).yields rx ∧ (Food.disty LINES).yields ry

instance (COLS LINES rx ry : Int) : Decidable (Food.respawnDraws COLS LINES rx ry) := by
  unfold Food.respawnDraws
  infer_instance

/-- The relation between score and body length kept by the loop of `main`: at least
three segments and `score = length - 3`. -/
def Game.scoreTracksLength (g : Game) : Prop :=
  3 ≤ g.snake.body.length ∧ g.score = (g.snake.body.length : Int) - 3

theorem setDirection_body (s : Snake) (x y : Int) : (s.setDirection x y).body = s.body := by
  unfold Snake.setDirection
  split <;> rfl

theorem setDirection_isUnit (s : Snake) (x y : Int) (hd : isUnit s.x_dir s.y_dir)
    (hc : isUnit x y) : isUnit (s.setDirection x y).x_dir (s.setDirection x y).y_dir := by
  unfold Snake.setDirection
  split
  · exact hc
  · exact hd

theorem move_of_cons (s : Snake) (h : Coordinates) (rest : List Coordinates)
    (COLS LINES : Int) (hb : s.body = h :: rest) :
    s.move COLS LINES
      = some { s with body := Snake.newHead h s.x_dir s.y_dir COLS LINES :: (h :: rest).dropLast } := by
  unfold Snake.move Snake.getHead
  rw [hb]
  simp [List.dropLast]

theorem length_dropLast_cons (h : Coordinates) (rest : List Coordinates) :
    (h :: rest).dropLast.length = rest.length := by
  simp

theorem grow_of_ne_nil (s : Snake) (hne : s.body ≠ []) :
    s.grow = some { s with body := s.body ++ [s.body.getLast hne] } := by
  unfold Snake.grow
  rw [List.getLast?_eq_getLast _ hne]

theorem apply_wellFormed (o : Op) (s : Snake) (ho : o.unitArgs) (hs : s.wellFormed) :
    ∃ s1, o.apply s = some s1 ∧ s1.wellFormed := by
  obtain ⟨hd, hl⟩ := hs
  cases o with
  | setDirection x y =>
    refine ⟨s.setDirection x y, rfl, setDirection_isUnit s x y hd ho, ?_⟩
    rw [setDirection_body]
    exact hl
  | move COLS LINES =>
    cases hb : s.body with
    | nil => rw [hb] at hl; simp at hl
    | cons h rest =>
      refine ⟨_, move_of_cons s h rest COLS LINES hb, hd, ?_⟩
      rw [hb] at hl
      simp only [List.length_cons, length_dropLast_cons] at hl ⊢
      omega
  | grow =>
    have hne : s.body ≠ [] := by
      intro h0
      rw [h0] at hl
      simp at hl
    refine ⟨_, grow_of_ne_nil s hne, hd, ?_⟩
    simp only [List.length_append, List.length_singleton]
    omega
  | reset =>
    refine ⟨s.reset, rfl, ?_, ?_⟩
    · simp [Snake.reset, isUnit]
    · simp [Snake.reset]

theorem init_wellFormed : Snake.init.wellFormed := by
  constructor
  · simp [Snake.init, isUnit]
  · simp [Snake.init]

theorem runOps_wellFormed (ops : List Op) :
    ∀ s : Snake, s.wellFormed → (∀ o ∈ ops, o.unitArgs) →
      ∃ s1, runOps ops s = some s1 ∧ s1.wellFormed := by
  induction ops with
  | nil =>
    intro s hs _
    exact ⟨s, rfl, hs⟩
  | cons o rest ih =>
    intro s hs hall
    obtain ⟨s1, h1, hw1⟩ := apply_wellFormed o s (hall o (List.mem_cons_self o rest)) hs
    obtain ⟨s2, h2, hw2⟩ := ih s1 hw1 (fun o1 ho1 => hall o1 (List.mem_cons_of_mem o ho1))
    refine ⟨s2, ?_, hw2⟩
    simp only [runOps, h1]
    exact h2

/-! ## Direction -/

/-- C1: from an axis-aligned unit direction, `setDirection` with a unit vector `c` sets the
direction to `c` when `c` is perpendicular to the current direction and leaves it
unchanged when `c` is the current direction or its negation; the body is unchanged in
both cases.  From direction (1,0), `setDirection(0,-1)` gives (0,-1) and
`setDirection(-1,0)` leaves (1,0). -/
theorem setDirection_accepts_exactly_perpendicular (s : Snake) (cx cy : Int)
    (hd : isUnit s.x_dir s.y_dir) (hc : isUnit cx cy) :
    (cx * s.x_dir + cy * s.y_dir = 0 →
        (s.setDirection cx cy).x_dir = cx ∧ (s.setDirection cx cy).y_dir = cy) ∧
    (((cx = s.x_dir ∧ cy = s.y_dir) ∨ (cx = -s.x_dir ∧ cy = -s.y_dir)) →
        (s.setDirection cx cy).x_dir = s.x_dir ∧ (s.setDirection cx cy).y_dir = s.y_dir) ∧
    (cx * s.x_dir + cy * s.y_dir = 0 ∨ (cx = s.x_dir ∧ cy = s.y_dir)
        ∨ (cx = -s.x_dir ∧ cy = -s.y_dir)) ∧
    (s.setDirection cx cy).body = s.body ∧
    (∀ body : List Coordinates,
        Snake.setDirection ⟨1, 0, body⟩ 0 (-1) = ⟨0, -1, body⟩ ∧
        Snake.setDirection ⟨1, 0, body⟩ (-1) 0 = ⟨1, 0, body⟩) := by
  refine ⟨?_, ?_, ?_, setDirection_body s cx cy, fun body => ⟨by simp [Snake.setDirection],
    by simp [Snake.setDirection]⟩⟩
  · intro hdot
    unfold Snake.setDirection
    rcases hd with ⟨h1, h2⟩ | ⟨h1, h2⟩ | ⟨h1, h2⟩ | ⟨h1, h2⟩ <;>
    rcases hc with ⟨h3, h4⟩ | ⟨h3, h4⟩ | ⟨h3, h4⟩ | ⟨h3, h4⟩ <;>
    simp_all
  · intro hsame
    unfold Snake.setDirection
    rcases hd with ⟨h1, h2⟩ | ⟨h1, h2⟩ | ⟨h1, h2⟩ | ⟨h1, h2⟩ <;>
    rcases hc with ⟨h3, h4⟩ | ⟨h3, h4⟩ | ⟨h3, h4⟩ | ⟨h3, h4⟩ <;>
    simp_all
  · rcases hd with ⟨h1, h2⟩ | ⟨h1, h2⟩ | ⟨h1, h2⟩ | ⟨h1, h2⟩ <;>
    rcases hc with ⟨h3, h4⟩ | ⟨h3, h4⟩ | ⟨h3, h4⟩ | ⟨h3, h4⟩ <;>
    simp_all

/-- Witness of C1 at the fresh snake and the candidate (0,-1). -/
theorem setDirection_accepts_exactly_perpendicular_witness :
    (Snake.init.setDirection 0 (-1)).x_dir = 0 ∧ (Snake.init.setDirection 0 (-1)).y_dir = -1 :=
  (setDirection_accepts_exactly_perpendicular Snake.init 0 (-1) (by decide) (by decide)).1
    (by decide)

/-- C2: after every finite sequence of `setDirection` (unit vectors), `move`, `grow` and
`reset` calls on a fresh snake the calls all return, the direction does not have both
components nonzero, and a further `setDirection` call with a unit vector never yields the
exact negation of the direction it started from. -/
theorem direction_invariant (ops : List Op) (hops : ∀ o ∈ ops, o.unitArgs) :
    ∃ s : Snake, runOps ops Snake.init = some s ∧
      ¬ (s.x_dir ≠ 0 ∧ s.y_dir ≠ 0) ∧
      ∀ x y : Int, isUnit x y →
        ¬ ((s.setDirection x y).x_dir = -s.x_dir ∧ (s.setDirection x y).y_dir = -s.y_dir) := by
  obtain ⟨s, hrun, hd, _⟩ := runOps_wellFormed ops Snake.init init_wellFormed hops
  refine ⟨s, hrun, ?_, ?_⟩
  · rcases hd with ⟨h1, h2⟩ | ⟨h1, h2⟩ | ⟨h1, h2⟩ | ⟨h1, h2⟩ <;> simp [h1, h2]
  · intro x y hc
    unfold Snake.setDirection
    rcases hd with ⟨h1, h2⟩ | ⟨h1, h2⟩ | ⟨h1, h2⟩ | ⟨h1, h2⟩ <;>
    rcases hc with ⟨h3, h4⟩ | ⟨h3, h4⟩ | ⟨h3, h4⟩ | ⟨h3, h4⟩ <;>
    simp [h1, h2, h3, h4]

/-- Witness of C2 on a sequence that turns, moves, grows and resets. -/
theorem direction_invariant_witness :
    ∃ s : Snake,
      runOps [Op.setDirection 0 (-1), Op.move 80 24, Op.grow, Op.setDirection (-1) 0,
        Op.move 80 24, Op.reset, Op.setDirection 0 1] Snake.init = some s ∧
      ¬ (s.x_dir ≠ 0 ∧ s.y_dir ≠ 0) ∧
      ∀ x y : Int, isUnit x y →
        ¬ ((s.setDirection x y).x_dir = -s.x_dir ∧ (s.setDirection x y).y_dir = -s.y_dir) :=
  direction_invariant _ (by decide)

/-- C3 fails on the code: on an 80x24 terminal a fresh snake moves right, then
`setDirection(0,-1)` and `setDirection(-1,0)` are both accepted before the next `move`, so
the second move uses direction (-1,0), the negation of (1,0); its new head (10,5) is the
cell of the segment directly behind the head, and `collided` answers true afterwards.
The loop of `main` reaches this with the keys up and left pressed inside one 100 ms
interval. -/
theorem two_turns_between_moves_reverse :
    Snake.init.x_dir = 1 ∧ Snake.init.y_dir = 0 ∧
    runOps [Op.move 80 24, Op.setDirection 0 (-1), Op.setDirection (-1) 0] Snake.init
      = some ⟨-1, 0, [⟨11, 5⟩, ⟨10, 5⟩, ⟨9, 5⟩]⟩ ∧
    runOps [Op.move 80 24, Op.setDirection 0 (-1), Op.setDirection (-1) 0, Op.move 80 24]
        Snake.init
      = some ⟨-1, 0, [⟨10, 5⟩, ⟨11, 5⟩, ⟨10, 5⟩]⟩ ∧
    Snake.collided ⟨-1, 0, [⟨10, 5⟩, ⟨11, 5⟩, ⟨10, 5⟩]⟩
      = some (true, ⟨-1, 0, [⟨10, 5⟩, ⟨11, 5⟩, ⟨10, 5⟩]⟩) ∧
    mainLoop (Game.start 40 12 0)
        [⟨-1, 80, 24, 101, 101, 1, 1⟩, ⟨KEY_UP, 80, 24, 130, 130, 1, 1⟩,
          ⟨KEY_LEFT, 80, 24, 160, 160, 1, 1⟩]
      = some ⟨⟨-1, 0, [⟨11, 5⟩, ⟨10, 5⟩, ⟨9, 5⟩]⟩, Food.init 40 12, 0, 101⟩ ∧
    moveGate ⟨⟨-1, 0, [⟨11, 5⟩, ⟨10, 5⟩, ⟨9, 5⟩]⟩, Food.init 40 12, 0, 101⟩
        ⟨-1, 80, 24, 202, 202, 1, 1⟩
      = some ⟨⟨-1, 0, [⟨10, 5⟩, ⟨11, 5⟩, ⟨10, 5⟩]⟩, Food.init 40 12, 0, 202⟩ := by
  decide

/-! ## Movement and growth -/

theorem newHead_eq (h : Coordinates) (dx dy COLS LINES : Int) :
    Snake.newHead h dx dy COLS LINES =
      { x := if h.x + dx ≤ 0 then COLS - 1 else if h.x + dx ≥ COLS then 1 else h.x + dx,
        y := if h.y + dy ≤ 0 then LINES - 2 else if h.y + dy ≥ LINES - 1 then 1
             else h.y + dy } := by
  unfold Snake.newHead
  simp only
  split_ifs <;> rfl

theorem newHead_inside (h : Coordinates) (dx dy COLS LINES : Int)
    (hx0 : 0 < h.x + dx) (hx1 : h.x + dx < COLS)
    (hy0 : 0 < h.y + dy) (hy1 : h.y + dy < LINES - 1) :
    Snake.newHead h dx dy COLS LINES = ⟨h.x + dx, h.y + dy⟩ := by
  rw [newHead_eq, if_neg (by omega), if_neg (by omega), if_neg (by omega), if_neg (by omega)]

theorem newHead_wrapped (h : Coordinates) (dx dy COLS LINES : Int)
    (hc : 2 ≤ COLS) (hl : 3 ≤ LINES) :
    1 ≤ (Snake.newHead h dx dy COLS LINES).x ∧ (Snake.newHead h dx dy COLS LINES).x ≤ COLS - 1 ∧
    1 ≤ (Snake.newHead h dx dy COLS LINES).y ∧ (Snake.newHead h dx dy COLS LINES).y ≤ LINES - 2 := by
  rw [newHead_eq]
  simp only
  split_ifs <;> omega

/-- With at most one accepted turn between two moves on a terminal of at least 4 columns
and 5 lines, the second new head is not the cell the first move started from. -/
theorem second_newHead_ne_neck (h : Coordinates) (dx dy ex ey COLS LINES : Int)
    (hd : isUnit dx dy) (he : isUnit ex ey) (hrev : ¬ (ex = -dx ∧ ey = -dy))
    (hc : 4 ≤ COLS) (hl : 5 ≤ LINES) :
    Snake.newHead (Snake.newHead h dx dy COLS LINES) ex ey COLS LINES ≠ h := by
  intro hcontra
  have hx := congrArg Coordinates.x hcontra
  have hy := congrArg Coordinates.y hcontra
  rw [newHead_eq, newHead_eq] at hx hy
  simp only at hx hy
  rcases hd with ⟨h1, h2⟩ | ⟨h1, h2⟩ | ⟨h1, h2⟩ | ⟨h1, h2⟩ <;>
  rcases he with ⟨h3, h4⟩ | ⟨h3, h4⟩ | ⟨h3, h4⟩ | ⟨h3, h4⟩ <;>
  subst h1 h2 h3 h4 <;>
  first
    | exact hrev ⟨by decide, by decide⟩
    | (clear hy; split_ifs at hx <;> omega)
    | (clear hx; split_ifs at hy <;> omega)

/-- C4: when `head + direction` lies strictly inside the wrap thresholds, `move` returns
the body made of `head + direction` followed by the old body without its last element;
with `COLS >= 12` and `LINES >= 7` the body [(10,5),(9,5),(8,5)] with direction (1,0)
becomes [(11,5),(10,5),(9,5)]. -/
theorem move_shifts_body_by_one_cell :
    (∀ (s : Snake) (h : Coordinates) (rest : List Coordinates) (COLS LINES : Int),
      s.body = h :: rest →
      0 < h.x + s.x_dir → h.x + s.x_dir < COLS →
      0 < h.y + s.y_dir → h.y + s.y_dir < LINES - 1 →
      s.move COLS LINES
        = some { s with body := ⟨h.x + s.x_dir, h.y + s.y_dir⟩ :: (h :: rest).dropLast }) ∧
    (∀ COLS LINES : Int, 12 ≤ COLS → 7 ≤ LINES →
      Snake.move ⟨1, 0, [⟨10, 5⟩, ⟨9, 5⟩, ⟨8, 5⟩]⟩ COLS LINES
        = some ⟨1, 0, [⟨11, 5⟩, ⟨10, 5⟩, ⟨9, 5⟩]⟩) := by
  have general : ∀ (s : Snake) (h : Coordinates) (rest : List Coordinates) (COLS LINES : Int),
      s.body = h :: rest →
      0 < h.x + s.x_dir → h.x + s.x_dir < COLS →
      0 < h.y + s.y_dir → h.y + s.y_dir < LINES - 1 →
      s.move COLS LINES
        = some { s with body := ⟨h.x + s.x_dir, h.y + s.y_dir⟩ :: (h :: rest).dropLast } := by
    intro s h rest COLS LINES hb hx0 hx1 hy0 hy1
    rw [move_of_cons s h rest COLS LINES hb, newHead_inside h _ _ COLS LINES hx0 hx1 hy0 hy1]
  refine ⟨general, ?_⟩
  intro COLS LINES hc hl
  rw [general ⟨1, 0, [⟨10, 5⟩, ⟨9, 5⟩, ⟨8, 5⟩]⟩ ⟨10, 5⟩ [⟨9, 5⟩, ⟨8, 5⟩] COLS LINES rfl
    (by simp) (by simp; omega) (by simp) (by simp; omega)]
  simp [List.dropLast]

/-- Witness of C4: a two-segment snake heading up on an 80x24 terminal, and the fresh
snake on the same terminal. -/
theorem move_shifts_body_by_one_cell_witness :
    Snake.move ⟨0, -1, [⟨4, 7⟩, ⟨4, 8⟩]⟩ 80 24 = some ⟨0, -1, [⟨4, 6⟩, ⟨4, 7⟩]⟩ ∧
    Snake.move ⟨1, 0, [⟨10, 5⟩, ⟨9, 5⟩, ⟨8, 5⟩]⟩ 80 24
      = some ⟨1, 0, [⟨11, 5⟩, ⟨10, 5⟩, ⟨9, 5⟩]⟩ :=
  ⟨move_shifts_body_by_one_cell.1 ⟨0, -1, [⟨4, 7⟩, ⟨4, 8⟩]⟩ ⟨4, 7⟩ [⟨4, 8⟩] 80 24 rfl
      (by decide) (by decide) (by decide) (by decide),
    move_shifts_body_by_one_cell.2 80 24 (by decide) (by decide)⟩

/-- C5: for `COLS >= 2` and `LINES >= 3`, every non-empty body and every direction, `move`
returns and the head of the new body has `1 <= x <= COLS-1` and `1 <= y <= LINES-2`: it is
not on row 0, not on the last row and not beyond the far edge. -/
theorem move_wrap_invariant (s : Snake) (COLS LINES : Int)
    (hc : 2 ≤ COLS) (hl : 3 ≤ LINES) (hne : s.body ≠ []) :
    ∃ (s1 : Snake) (nh : Coordinates),
      s.move COLS LINES = some s1 ∧ s1.getHead = some nh ∧
      1 ≤ nh.x ∧ nh.x ≤ COLS - 1 ∧ 1 ≤ nh.y ∧ nh.y ≤ LINES - 2 ∧
      nh.y ≠ 0 ∧ nh.y ≠ LINES - 1 ∧ nh.x < COLS := by
  cases hb : s.body with
  | nil => exact absurd hb hne
  | cons h rest =>
    obtain ⟨h1, h2, h3, h4⟩ := newHead_wrapped h s.x_dir s.y_dir COLS LINES hc hl
    refine ⟨_, Snake.newHead h s.x_dir s.y_dir COLS LINES, move_of_cons s h rest COLS LINES hb,
      ?_, h1, h2, h3, h4, ?_, ?_, ?_⟩
    · simp [Snake.getHead, List.dropLast]
    · omega
    · omega
    · omega

/-- Witness of C5: a head far outside a 2x3 terminal is wrapped to the only interior
cell. -/
theorem move_wrap_invariant_witness :
    ∃ (s1 : Snake) (nh : Coordinates),
      Snake.move ⟨7, -9, [⟨10, 5⟩, ⟨9, 5⟩]⟩ 2 3 = some s1 ∧ s1.getHead = some nh ∧
      1 ≤ nh.x ∧ nh.x ≤ 2 - 1 ∧ 1 ≤ nh.y ∧ nh.y ≤ 3 - 2 ∧
      nh.y ≠ 0 ∧ nh.y ≠ 3 - 1 ∧ nh.x < 2 :=
  move_wrap_invariant ⟨7, -9, [⟨10, 5⟩, ⟨9, 5⟩]⟩ 2 3 (by decide) (by decide) (by decide)

/-- C6: for every non-empty body, every direction and every terminal size, `move` returns
and the body has the length it had before. -/
theorem move_preserves_length (s : Snake) (COLS LINES : Int) (hne : s.body ≠ []) :
    ∃ s1 : Snake, s.move COLS LINES = some s1 ∧ s1.body.length = s.body.length := by
  cases hb : s.body with
  | nil => exact absurd hb hne
  | cons h rest =>
    refine ⟨_, move_of_cons s h rest COLS LINES hb, ?_⟩
    simp

/-- Witness of C6 on the fresh snake and a 3x3 terminal. -/
theorem move_preserves_length_witness :
    ∃ s1 : Snake, Snake.init.move 3 3 = some s1 ∧ s1.body.length = Snake.init.body.length :=
  move_preserves_length Snake.init 3 3 (by decide)

/-- C7: for every non-empty body `b`, `grow` followed by one `move` returns the body made
of the new wrapped head followed by all of `b`: its length is `length b + 1` and every
cell of `b` is still occupied. -/
theorem grow_then_move_adds_one (s : Snake) (COLS LINES : Int) (hne : s.body ≠ []) :
    ∃ (h : Coordinates) (g s1 : Snake),
      s.getHead = some h ∧ s.grow = some g ∧ g.move COLS LINES = some s1 ∧
      s1.body = Snake.newHead h s.x_dir s.y_dir COLS LINES :: s.body ∧
      s1.body.length = s.body.length + 1 ∧
      (∀ c ∈ s.body, c ∈ s1.body) ∧
      s1.x_dir = s.x_dir ∧ s1.y_dir = s.y_dir := by
  cases hb : s.body with
  | nil => exact absurd hb hne
  | cons h rest =>
    have hg := grow_of_ne_nil s hne
    have hgb : ({ s with body := s.body ++ [s.body.getLast hne] } : Snake).body
        = h :: (rest ++ [s.body.getLast hne]) := by
      simp [hb]
    have hm := move_of_cons _ h (rest ++ [s.body.getLast hne]) COLS LINES hgb
    refine ⟨h, _, _, by simp [Snake.getHead, hb], hg, hm, ?_, ?_, ?_, rfl, rfl⟩
    · have : (h :: (rest ++ [s.body.getLast hne])).dropLast = h :: rest := by
        rw [← List.cons_append, List.dropLast_concat]
      simp [this]
    · have : (h :: (rest ++ [s.body.getLast hne])).dropLast = h :: rest := by
        rw [← List.cons_append, List.dropLast_concat]
      simp [this]
    · intro c hcmem
      have : (h :: (rest ++ [s.body.getLast hne])).dropLast = h :: rest := by
        rw [← List.cons_append, List.dropLast_concat]
      simp only [this]
      exact List.mem_cons_of_mem _ hcmem

/-- Witness of C7 on the fresh snake and an 80x24 terminal. -/
theorem grow_then_move_adds_one_witness :
    ∃ (h : Coordinates) (g s1 : Snake),
      Snake.init.getHead = some h ∧ Snake.init.grow = some g ∧ g.move 80 24 = some s1 ∧
      s1.body = Snake.newHead h Snake.init.x_dir Snake.init.y_dir 80 24 :: Snake.init.body ∧
      s1.body.length = Snake.init.body.length + 1 ∧
      (∀ c ∈ Snake.init.body, c ∈ s1.body) ∧
      s1.x_dir = Snake.init.x_dir ∧ s1.y_dir = Snake.init.y_dir :=
  grow_then_move_adds_one Snake.init 80 24 (by decide)

/-! ## Collision and reset -/

theorem collidedLoop_iff (head : Coordinates) (rest : List Coordinates) :
    Snake.collidedLoop head rest = true ↔ ∃ c ∈ rest, head.x = c.x ∧ head.y = c.y := by
  induction rest with
  | nil => simp [Snake.collidedLoop]
  | cons it rest ih =>
    unfold Snake.collidedLoop
    by_cases hit : head.x = it.x ∧ head.y = it.y
    · rw [if_pos hit]
      simp only [List.mem_cons, true_iff]
      exact ⟨it, Or.inl rfl, hit⟩
    · rw [if_neg hit, ih]
      constructor
      · rintro ⟨c, hc, hxy⟩
        exact ⟨c, List.mem_cons_of_mem _ hc, hxy⟩
      · rintro ⟨c, hc, hxy⟩
        rcases List.mem_cons.mp hc with rfl | hc1
        · exact absurd hxy hit
        · exact ⟨c, hc1, hxy⟩

/-- C8: for every non-empty body `collided` returns true exactly when the head equals, in
both x and y, some coordinate of `body[1:]`; it returns false for a 1-segment body and for
a body of pairwise distinct coordinates; the snake after the call is the snake before
it. -/
theorem collided_iff_head_in_rest (s : Snake) (hne : s.body ≠ []) :
    ∃ (h : Coordinates) (b : Bool),
      s.getHead = some h ∧ s.collided = some (b, s) ∧
      (b = true ↔ ∃ c ∈ s.body.tail, h.x = c.x ∧ h.y = c.y) ∧
      (s.body.length = 1 → b = false) ∧
      (s.body.Nodup → b = false) := by
  cases hb : s.body with
  | nil => exact absurd hb hne
  | cons h rest =>
    refine ⟨h, Snake.collidedLoop h rest, by simp [Snake.getHead, hb], ?_, ?_, ?_, ?_⟩
    · unfold Snake.collided
      rw [hb]
    · simpa using collidedLoop_iff h rest
    · intro hlen
      have hrest : rest = [] := by
        cases rest with
        | nil => rfl
        | cons c cs => simp at hlen
      rw [hrest]
      rfl
    · intro hnd
      cases hcl : Snake.collidedLoop h rest with
      | false => rfl
      | true =>
        obtain ⟨c, hc, hx, hy⟩ := (collidedLoop_iff h rest).mp hcl
        have hhc : h = c := by
          cases h
          cases c
          simp_all
        rw [List.nodup_cons] at hnd
        exact absurd (hhc ▸ hc) hnd.1

/-- Witness of C8 on the fresh snake, whose three cells are distinct. -/
theorem collided_iff_head_in_rest_witness :
    ∃ (h : Coordinates) (b : Bool),
      Snake.init.getHead = some h ∧ Snake.init.collided = some (b, Snake.init) ∧
      (b = true ↔ ∃ c ∈ Snake.init.body.tail, h.x = c.x ∧ h.y = c.y) ∧
      (Snake.init.body.length = 1 → b = false) ∧
      (Snake.init.body.Nodup → b = false) :=
  collided_iff_head_in_rest Snake.init (by decide)

/-- C9: whatever the body and the direction, after `reset` the body is
[(10,5),(9,5),(8,5)] and the direction is (1,0): the state of a freshly constructed
snake. -/
theorem reset_restores_start_state (s : Snake) :
    s.reset.body = [⟨10, 5⟩, ⟨9, 5⟩, ⟨8, 5⟩] ∧ s.reset.x_dir = 1 ∧ s.reset.y_dir = 0 ∧
    s.reset = Snake.init := by
  simp [Snake.reset, Snake.init]

/-! ## The frame -/

/-- C10: in a frame the eating step runs on the state the movement gate returns and before
the collision step.  On a game state with a non-empty body: if the head equals the food
position the step returns the state with the score incremented by 1, the snake grown (its
last cell appended once more, length + 1) and the food respawned; otherwise it returns the
state unchanged. -/
theorem eating_step (g : Game) (i : FrameInput) (hne : g.snake.body ≠ []) :
    ∃ (h back : Coordinates),
      g.snake.getHead = some h ∧ g.snake.body.getLast? = some back ∧
      ((h.x = g.food.getPos.x ∧ h.y = g.food.getPos.y) →
        ∃ g1 : Game, eatingStep g i = some g1 ∧
          g1.score = g.score + 1 ∧
          g.snake.grow = some g1.snake ∧
          g1.snake.body = g.snake.body ++ [back] ∧
          g1.snake.body.length = g.snake.body.length + 1 ∧
          g1.snake.x_dir = g.snake.x_dir ∧ g1.snake.y_dir = g.snake.y_dir ∧
          g1.food = g.food.respawn i.rx i.ry ∧
          g1.food.getPos = ⟨i.rx, i.ry⟩ ∧
          g1.lastMoveTime = g.lastMoveTime) ∧
      (¬ (h.x = g.food.getPos.x ∧ h.y = g.food.getPos.y) → eatingStep g i = some g) ∧
      (∀ g0 : Game, i.ch ≠ KEY_q →
        frame g0 i = (moveGate (inputStep g0 i) i).bind (fun ga =>
          (eatingStep ga i).bind (fun gb => (collisionStep gb).map FrameResult.next))) := by
  cases hb : g.snake.body with
  | nil => exact absurd hb hne
  | cons h rest =>
    have hhead : g.snake.getHead = some h := by simp [Snake.getHead, hb]
    have hlast : g.snake.body.getLast? = some (g.snake.body.getLast hne) :=
      List.getLast?_eq_getLast _ hne
    refine ⟨h, g.snake.body.getLast hne, hhead, by rw [← hb]; exact hlast, ?_, ?_, ?_⟩
    · intro heq
      refine ⟨{ g with score := g.score + 1,
                       snake := { g.snake with body := g.snake.body ++ [g.snake.body.getLast hne] },
                       food := g.food.respawn i.rx i.ry }, ?_, rfl, ?_, ?_, ?_, rfl, rfl, rfl, rfl, rfl⟩
      · unfold eatingStep
        rw [hhead]
        simp only
        rw [if_pos heq, grow_of_ne_nil g.snake hne]
      · exact grow_of_ne_nil g.snake hne
      · simp [hb]
      · simp [hb]
    · intro hneq
      unfold eatingStep
      rw [hhead]
      simp only
      rw [if_neg hneq]
    · intro g0 hq
      unfold frame
      rw [if_neg hq]
      cases moveGate (inputStep g0 i) i with
      | none => rfl
      | some ga =>
        simp only [Option.bind]
        cases eatingStep ga i with
        | none => rfl
        | some gb =>
          simp only
          cases collisionStep gb with
          | none => rfl
          | some gc => rfl

/-- Witness of C10: the fresh snake with the food under its head. -/
theorem eating_step_witness :
    ∃ g1 : Game,
      eatingStep ⟨Snake.init, Food.init 10 5, 0, 0⟩ ⟨0, 80, 24, 0, 0, 33, 7⟩ = some g1 ∧
      g1.score = 1 ∧ g1.snake.body = [⟨10, 5⟩, ⟨9, 5⟩, ⟨8, 5⟩, ⟨8, 5⟩] ∧
      g1.food.getPos = ⟨33, 7⟩ := by
  obtain ⟨h, back, hh, hback, heat, _, _⟩ :=
    eating_step ⟨Snake.init, Food.init 10 5, 0, 0⟩ ⟨0, 80, 24, 0, 0, 33, 7⟩ (by decide)
  have hh1 : h = ⟨10, 5⟩ := by
    have : some h = some (⟨10, 5⟩ : Coordinates) := by rw [← hh]; rfl
    exact Option.some.inj this
  have hb1 : back = ⟨8, 5⟩ := by
    have : some back = some (⟨8, 5⟩ : Coordinates) := by rw [← hback]; rfl
    exact Option.some.inj this
  subst hh1
  subst hb1
  obtain ⟨g1, h1, h2, _, h4, _, _, _, _, h9, _⟩ := heat ⟨rfl, rfl⟩
  exact ⟨g1, h1, by simpa using h2, h4, h9⟩

/-- The collision step on a non-empty body: either `collided` answered true and the step
returns score 0 with the start snake, or it answered false and the state is returned as
it was. -/
theorem collisionStep_cases (g : Game) (hne : g.snake.body ≠ []) :
    ∃ b : Bool, g.snake.collided = some (b, g.snake) ∧
      (b = true → collisionStep g = some { g with score := 0, snake := Snake.init }) ∧
      (b = false → collisionStep g = some g) := by
  cases hb : g.snake.body with
  | nil => exact absurd hb hne
  | cons h rest =>
    have hcol : g.snake.collided = some (Snake.collidedLoop h rest, g.snake) := by
      unfold Snake.collided
      rw [hb]
    refine ⟨Snake.collidedLoop h rest, hcol, ?_, ?_⟩
    · intro htrue
      unfold collisionStep
      rw [hcol, htrue]
      simp [Snake.reset, Snake.init]
    · intro hfalse
      unfold collisionStep
      rw [hcol, hfalse]

/-- C11: on a game state with a non-empty body, if `collided` is true at the collision
check the step returns score 0 and the freshly constructed snake with food and timestamp
as they were; if it is false the step returns the state unchanged.  The state a frame
ends with is the state returned by the collision step. -/
theorem collision_step (g : Game) (i : FrameInput) (hne : g.snake.body ≠ []) :
    ∃ (b : Bool) (g1 : Game),
      g.snake.collided = some (b, g.snake) ∧ collisionStep g = some g1 ∧
      (b = true →
        g1.score = 0 ∧ g1.snake = Snake.init ∧
        g1.snake.body = [⟨10, 5⟩, ⟨9, 5⟩, ⟨8, 5⟩] ∧ g1.snake.x_dir = 1 ∧ g1.snake.y_dir = 0 ∧
        g1.food = g.food ∧ g1.lastMoveTime = g.lastMoveTime) ∧
      (b = false → g1 = g) ∧
      (∀ g0 gEnd : Game, frame g0 i = some (FrameResult.next gEnd) →
        ∃ ga gb : Game, moveGate (inputStep g0 i) i = some ga ∧ eatingStep ga i = some gb ∧
          collisionStep gb = some gEnd) := by
  obtain ⟨b, hcol, htrue, hfalse⟩ := collisionStep_cases g hne
  have hframe : ∀ g0 gEnd : Game, frame g0 i = some (FrameResult.next gEnd) →
      ∃ ga gb : Game, moveGate (inputStep g0 i) i = some ga ∧ eatingStep ga i = some gb ∧
        collisionStep gb = some gEnd := by
    intro g0 gEnd hfr
    unfold frame at hfr
    split at hfr
    · simp at hfr
    · cases hga : moveGate (inputStep g0 i) i with
      | none => simp [hga] at hfr
      | some ga =>
        cases hgb : eatingStep ga i with
        | none => simp [hga, hgb] at hfr
        | some gb =>
          cases hgc : collisionStep gb with
          | none => simp [hga, hgb, hgc] at hfr
          | some gc =>
            simp [hga, hgb, hgc] at hfr
            exact ⟨ga, gb, rfl, hgb, by rw [hgc, hfr]⟩
  cases b with
  | true =>
    refine ⟨true, _, hcol, htrue rfl, ?_, ?_, hframe⟩
    · intro _
      simp [Snake.init]
    · intro hcontra
      exact absurd hcontra (by decide)
  | false =>
    refine ⟨false, g, hcol, hfalse rfl, ?_, ?_, hframe⟩
    · intro hcontra
      exact absurd hcontra (by decide)
    · intro _
      rfl

/-- Witness of C11: a snake that has run into its own body, score 4. -/
theorem collision_step_witness :
    collisionStep ⟨⟨-1, 0, [⟨10, 5⟩, ⟨11, 5⟩, ⟨10, 5⟩]⟩, Food.init 40 12, 4, 202⟩
      = some ⟨Snake.init, Food.init 40 12, 0, 202⟩ := by
  obtain ⟨b, g1, hcol, hstep, htrue, _, _⟩ :=
    collision_step ⟨⟨-1, 0, [⟨10, 5⟩, ⟨11, 5⟩, ⟨10, 5⟩]⟩, Food.init 40 12, 4, 202⟩
      ⟨0, 80, 24, 0, 0, 1, 1⟩ (by decide)
  have hb : b = true := by
    have h2 : some (b, (⟨-1, 0, [⟨10, 5⟩, ⟨11, 5⟩, ⟨10, 5⟩]⟩ : Snake))
        = some (true, (⟨-1, 0, [⟨10, 5⟩, ⟨11, 5⟩, ⟨10, 5⟩]⟩ : Snake)) := by
      rw [← hcol]
      rfl
    exact (Prod.mk.inj (Option.some.inj h2)).1
  obtain ⟨h1, h2, _, _, _, h6, h7⟩ := htrue hb
  rw [hstep]
  cases g1
  simp_all

/-! ## Body length -/

/-- What each operation does to the body length, for a body of at least one segment and
whatever arguments `setDirection` is called with. -/
theorem apply_length (o : Op) (s : Snake) (hne : s.body ≠ []) :
    ∃ s1 : Snake, o.apply s = some s1 ∧
      ((∃ x y, o = Op.setDirection x y) → s1.body.length = s.body.length) ∧
      ((∃ COLS LINES, o = Op.move COLS LINES) → s1.body.length = s.body.length) ∧
      (o = Op.grow → s1.body.length = s.body.length + 1) ∧
      (o = Op.reset → s1.body.length = 3) := by
  cases o with
  | setDirection x y =>
    refine ⟨s.setDirection x y, rfl, ?_, ?_, ?_, ?_⟩
    · intro _
      rw [setDirection_body]
    · intro _
      rw [setDirection_body]
    · intro h
      cases h
    · intro h
      cases h
  | move COLS LINES =>
    cases hb : s.body with
    | nil => exact absurd hb hne
    | cons h rest =>
      refine ⟨_, move_of_cons s h rest COLS LINES hb, ?_, ?_, ?_, ?_⟩
      · intro _
        simp
      · intro _
        simp
      · intro h1
        cases h1
      · intro h1
        cases h1
  | grow =>
    refine ⟨_, grow_of_ne_nil s hne, ?_, ?_, ?_, ?_⟩
    · rintro ⟨x, y, h⟩
      cases h
    · rintro ⟨x, y, h⟩
      cases h
    · intro _
      simp
    · intro h
      cases h
  | reset =>
    refine ⟨s.reset, rfl, ?_, ?_, ?_, ?_⟩
    · rintro ⟨x, y, h⟩
      cases h
    · rintro ⟨x, y, h⟩
      cases h
    · intro h
      cases h
    · intro _
      simp [Snake.reset]

theorem ne_nil_of_three_le (l : List Coordinates) (h : 3 ≤ l.length) : l ≠ [] := by
  intro h0
  rw [h0] at h
  simp at h

theorem apply_three_le (o : Op) (s : Snake) (hl : 3 ≤ s.body.length) :
    ∃ s1 : Snake, o.apply s = some s1 ∧ 3 ≤ s1.body.length := by
  obtain ⟨s1, h1, hset, hmove, hgrow, hreset⟩ :=
    apply_length o s (ne_nil_of_three_le s.body hl)
  refine ⟨s1, h1, ?_⟩
  cases o with
  | setDirection x y => rw [hset ⟨x, y, rfl⟩]; exact hl
  | move COLS LINES => rw [hmove ⟨COLS, LINES, rfl⟩]; exact hl
  | grow => rw [hgrow rfl]; omega
  | reset => rw [hreset rfl]

theorem runOps_three_le (ops : List Op) :
    ∀ s : Snake, 3 ≤ s.body.length → ∃ s1 : Snake, runOps ops s = some s1 ∧ 3 ≤ s1.body.length := by
  induction ops with
  | nil =>
    intro s hs
    exact ⟨s, rfl, hs⟩
  | cons o rest ih =>
    intro s hs
    obtain ⟨s1, h1, hl1⟩ := apply_three_le o s hs
    obtain ⟨s2, h2, hl2⟩ := ih s1 hl1
    refine ⟨s2, ?_, hl2⟩
    simp only [runOps, h1]
    exact h2

/-- C12: after every finite sequence of `setDirection`, `move`, `grow` and `reset` calls
on a freshly constructed snake all calls have returned and the body has at least three
segments, hence at least one; `getHead`, `move`, `grow` and `collided` are defined on the
state reached. -/
theorem body_never_empty (ops : List Op) :
    Snake.init.body.length = 3 ∧
    ∃ s : Snake, runOps ops Snake.init = some s ∧
      3 ≤ s.body.length ∧ 1 ≤ s.body.length ∧ s.body ≠ [] ∧
      s.getHead.isSome = true ∧
      (∀ COLS LINES : Int, (s.move COLS LINES).isSome = true) ∧
      s.grow.isSome = true ∧
      s.collided.isSome = true := by
  refine ⟨rfl, ?_⟩
  obtain ⟨s, hrun, hl⟩ := runOps_three_le ops Snake.init (by simp [Snake.init])
  have hne := ne_nil_of_three_le s.body hl
  refine ⟨s, hrun, hl, by omega, hne, ?_, ?_, ?_, ?_⟩
  · cases hb : s.body with
    | nil => exact absurd hb hne
    | cons h rest => simp [Snake.getHead, hb]
  · intro COLS LINES
    cases hb : s.body with
    | nil => exact absurd hb hne
    | cons h rest => rw [move_of_cons s h rest COLS LINES hb]; rfl
  · rw [grow_of_ne_nil s hne]
    rfl
  · cases hb : s.body with
    | nil => exact absurd hb hne
    | cons h rest =>
      unfold Snake.collided
      rw [hb]
      rfl

theorem runOps_length_mono (ops : List Op) :
    ∀ s s1 : Snake, s.body ≠ [] → Op.reset ∉ ops → runOps ops s = some s1 →
      s.body.length ≤ s1.body.length := by
  induction ops with
  | nil =>
    intro s s1 _ _ hrun
    simp only [runOps, Option.some.injEq] at hrun
    rw [hrun]
  | cons o rest ih =>
    intro s s1 hne hnr hrun
    obtain ⟨s2, h2, hset, hmove, hgrow, _⟩ := apply_length o s hne
    simp only [runOps, h2] at hrun
    have ho : o ≠ Op.reset := fun h => hnr (h ▸ List.mem_cons_self o rest)
    have hle : s.body.length ≤ s2.body.length := by
      cases o with
      | setDirection x y => rw [hset ⟨x, y, rfl⟩]
      | move COLS LINES => rw [hmove ⟨COLS, LINES, rfl⟩]
      | grow => rw [hgrow rfl]; omega
      | reset => exact absurd rfl ho
    have hne2 : s2.body ≠ [] := by
      intro h0
      rw [h0] at hle
      have : s.body.length = 0 := by simpa using hle
      exact hne (List.length_eq_zero.mp this)
    exact Nat.le_trans hle (ih s2 s1 hne2 (fun h => hnr (List.mem_cons_of_mem o h)) hrun)

/-- C13: on every snake with a non-empty body `setDirection` and `move` return a body of
the same length and `grow` one of length + 1; an operation that returns a shorter body is
`reset`, and a sequence of operations without `reset` never ends with a shorter body. -/
theorem length_nondecreasing_except_reset (s : Snake) (hne : s.body ≠ []) :
    (∀ x y : Int, (s.setDirection x y).body.length = s.body.length) ∧
    (∀ COLS LINES : Int, ∃ s1 : Snake,
        s.move COLS LINES = some s1 ∧ s1.body.length = s.body.length) ∧
    (∃ s1 : Snake, s.grow = some s1 ∧ s1.body.length = s.body.length + 1) ∧
    (∀ (o : Op) (s1 : Snake), o.apply s = some s1 → s1.body.length < s.body.length →
        o = Op.reset) ∧
    (∀ (ops : List Op) (s1 : Snake), Op.reset ∉ ops → runOps ops s = some s1 →
        s.body.length ≤ s1.body.length) := by
  refine ⟨?_, ?_, ?_, ?_, ?_⟩
  · intro x y
    rw [setDirection_body]
  · intro COLS LINES
    obtain ⟨s1, h1, _, hmove, _, _⟩ := apply_length (Op.move COLS LINES) s hne
    exact ⟨s1, h1, hmove ⟨COLS, LINES, rfl⟩⟩
  · obtain ⟨s1, h1, _, _, hgrow, _⟩ := apply_length Op.grow s hne
    exact ⟨s1, h1, hgrow rfl⟩
  · intro o s1 happ hlt
    obtain ⟨s2, h2, hset, hmove, hgrow, _⟩ := apply_length o s hne
    rw [happ] at h2
    have h12 : s1 = s2 := Option.some.inj h2
    subst h12
    cases o with
    | setDirection x y => rw [hset ⟨x, y, rfl⟩] at hlt; omega
    | move COLS LINES => rw [hmove ⟨COLS, LINES, rfl⟩] at hlt; omega
    | grow => rw [hgrow rfl] at hlt; omega
    | reset => rfl
  · intro ops s1 hnr hrun
    exact runOps_length_mono ops s s1 hne hnr hrun

/-- Witness of C13: a five-segment snake; `reset` is the operation that shortens it. -/
theorem length_nondecreasing_except_reset_witness :
    (∃ s1 : Snake, Snake.grow ⟨0, 1, [⟨3, 3⟩, ⟨3, 2⟩, ⟨3, 1⟩, ⟨2, 1⟩, ⟨1, 1⟩]⟩ = some s1 ∧
      s1.body.length = 5 + 1) ∧
    (Snake.reset ⟨0, 1, [⟨3, 3⟩, ⟨3, 2⟩, ⟨3, 1⟩, ⟨2, 1⟩, ⟨1, 1⟩]⟩).body.length < 5 :=
  ⟨(length_nondecreasing_except_reset ⟨0, 1, [⟨3, 3⟩, ⟨3, 2⟩, ⟨3, 1⟩, ⟨2, 1⟩, ⟨1, 1⟩]⟩
      (by decide)).2.2.1,
    by decide⟩

/-! ## Food -/

/-- C14: on a terminal with `COLS >= 3` and `LINES >= 3`, for every pair of values the two
distributions may return, the food position after `respawn`, and likewise that of a
freshly constructed `Food`, has `1 <= x <= COLS-2` and `1 <= y <= LINES-2`; on a 20x10
terminal x is in [1,18] and y in [1,8]. -/
theorem respawn_in_interior (f : Food) (COLS LINES rx ry : Int)
    (hc : 3 ≤ COLS) (hl : 3 ≤ LINES) (hdraw : Food.respawnDraws COLS LINES rx ry) :
    (1 ≤ (f.respawn rx ry).getPos.x ∧ (f.respawn rx ry).getPos.x ≤ COLS - 2 ∧
      1 ≤ (f.respawn rx ry).getPos.y ∧ (f.respawn rx ry).getPos.y ≤ LINES - 2) ∧
    (1 ≤ (Food.init rx ry).getPos.x ∧ (Food.init rx ry).getPos.x ≤ COLS - 2 ∧
      1 ≤ (Food.init rx ry).getPos.y ∧ (Food.init rx ry).getPos.y ≤ LINES - 2) ∧
    (COLS = 20 → LINES = 10 →
      1 ≤ (f.respawn rx ry).getPos.x ∧ (f.respawn rx ry).getPos.x ≤ 18 ∧
      1 ≤ (f.respawn rx ry).getPos.y ∧ (f.respawn rx ry).getPos.y ≤ 8) ∧
    (∃ ax ay : Int, Food.respawnDraws COLS LINES ax ay) := by
  obtain ⟨⟨hx0, hx1⟩, ⟨hy0, hy1⟩⟩ := hdraw
  simp only [Food.distx, Food.disty] at hx0 hx1 hy0 hy1
  refine ⟨⟨hx0, hx1, hy0, hy1⟩, ⟨hx0, hx1, hy0, hy1⟩, ?_, ⟨1, 1, ?_⟩⟩
  · intro h20 h10
    simp only [Food.respawn, Food.getPos]
    omega
  · simp only [Food.respawnDraws, UniformIntDistribution.yields, Food.distx, Food.disty]
    omega

/-- Witness of C14: the draws (18, 8), the far corner of the interior of a 20x10
terminal. -/
theorem respawn_in_interior_witness :
    1 ≤ ((Food.init 3 3).respawn 18 8).getPos.x ∧ ((Food.init 3 3).respawn 18 8).getPos.x ≤ 18 ∧
    1 ≤ ((Food.init 3 3).respawn 18 8).getPos.y ∧ ((Food.init 3 3).respawn 18 8).getPos.y ≤ 8 :=
  (respawn_in_interior (Food.init 3 3) 20 10 18 8 (by decide) (by decide) (by decide)).2.2.1
    rfl rfl

/-! ## Movement gate -/

/-- C15 as stated fails on the code: with the last move at time 0 and the clock at 100,
exactly 100 ms have elapsed, yet the gate returns the state as it was; the snake is not
moved (a move would have changed it) and the timestamp is not updated. -/
theorem move_gate_skips_at_exactly_100ms :
    (100 : Int) - (0 : Int) ≥ 100 ∧
    moveGate ⟨Snake.init, Food.init 40 12, 0, 0⟩ ⟨-1, 80, 24, 100, 100, 1, 1⟩
      = some ⟨Snake.init, Food.init 40 12, 0, 0⟩ ∧
    Snake.init.move 80 24 = some ⟨1, 0, [⟨11, 5⟩, ⟨10, 5⟩, ⟨9, 5⟩]⟩ ∧
    moveGate ⟨Snake.init, Food.init 40 12, 0, 0⟩ ⟨-1, 80, 24, 100, 100, 1, 1⟩
      ≠ some ⟨⟨1, 0, [⟨11, 5⟩, ⟨10, 5⟩, ⟨9, 5⟩]⟩, Food.init 40 12, 0, 100⟩ := by
  decide

/-- C15 amended: on a game state with a non-empty body the gate calls `move` exactly when
strictly more than 100 ms have elapsed since the last-moved timestamp; it then returns
the moved snake and the new clock reading as timestamp, and otherwise (in particular at
exactly 100 ms) it returns the state unchanged. -/
theorem move_gate_strictly_after_100ms (g : Game) (i : FrameInput) (hne : g.snake.body ≠ []) :
    (i.now1 - g.lastMoveTime > 100 →
      ∃ s : Snake, g.snake.move i.COLS i.LINES = some s ∧
        moveGate g i = some { g with snake := s, lastMoveTime := i.now2 }) ∧
    (¬ (i.now1 - g.lastMoveTime > 100) → moveGate g i = some g) ∧
    (i.now1 - g.lastMoveTime = 100 → moveGate g i = some g) := by
  have hskip : ¬ (i.now1 - g.lastMoveTime > 100) → moveGate g i = some g := by
    intro hle
    unfold moveGate
    simp only
    rw [if_neg (by omega)]
  refine ⟨?_, hskip, fun h100 => hskip (by omega)⟩
  intro hgt
  cases hb : g.snake.body with
  | nil => exact absurd hb hne
  | cons h rest =>
    have hm := move_of_cons g.snake h rest i.COLS i.LINES hb
    refine ⟨_, hm, ?_⟩
    unfold moveGate
    simp only
    rw [if_pos (by omega), hm]

/-- Witness of C15 amended: 101 ms after the last move the fresh snake is moved and the
timestamp becomes the second clock reading. -/
theorem move_gate_strictly_after_100ms_witness :
    ∃ s : Snake, Snake.init.move 80 24 = some s ∧
      moveGate ⟨Snake.init, Food.init 40 12, 0, 0⟩ ⟨-1, 80, 24, 101, 102, 1, 1⟩
        = some ⟨s, Food.init 40 12, 0, 102⟩ :=
  (move_gate_strictly_after_100ms ⟨Snake.init, Food.init 40 12, 0, 0⟩
    ⟨-1, 80, 24, 101, 102, 1, 1⟩ (by decide)).1 (by decide)

/-! ## Score -/

theorem inputStep_fields (g : Game) (i : FrameInput) :
    (inputStep g i).snake.body = g.snake.body ∧ (inputStep g i).score = g.score := by
  refine ⟨?_, rfl⟩
  unfold inputStep
  simp only
  split_ifs <;> simp only [setDirection_body]

theorem moveGate_fields (g : Game) (i : FrameInput) (hne : g.snake.body ≠ []) :
    ∃ g1 : Game, moveGate g i = some g1 ∧
      g1.snake.body.length = g.snake.body.length ∧ g1.score = g.score := by
  cases hb : g.snake.body with
  | nil => exact absurd hb hne
  | cons h rest =>
    have hm := move_of_cons g.snake h rest i.COLS i.LINES hb
    unfold moveGate
    simp only
    split
    · rw [hm]
      exact ⟨_, rfl, by simp, rfl⟩
    · exact ⟨g, rfl, by rw [hb], rfl⟩

theorem eatingStep_scoreTracksLength (g : Game) (i : FrameInput) (hg : g.scoreTracksLength) :
    ∃ g1 : Game, eatingStep g i = some g1 ∧ g1.scoreTracksLength := by
  obtain ⟨hl, hs⟩ := hg
  have hne := ne_nil_of_three_le g.snake.body hl
  cases hb : g.snake.body with
  | nil => exact absurd hb hne
  | cons h rest =>
    have hhead : g.snake.getHead = some h := by simp [Snake.getHead, hb]
    unfold eatingStep
    rw [hhead]
    simp only
    split
    · rw [grow_of_ne_nil g.snake hne]
      refine ⟨_, rfl, ?_, ?_⟩
      · simp only [List.length_append, List.length_singleton]
        omega
      · simp only [List.length_append, List.length_singleton, Nat.cast_add, Nat.cast_one]
        omega
    · exact ⟨g, rfl, hl, hs⟩

theorem collisionStep_scoreTracksLength (g : Game) (hg : g.scoreTracksLength) :
    ∃ g1 : Game, collisionStep g = some g1 ∧ g1.scoreTracksLength := by
  obtain ⟨b, _, htrue, hfalse⟩ := collisionStep_cases g (ne_nil_of_three_le g.snake.body hg.1)
  cases b with
  | true =>
    refine ⟨_, htrue rfl, ?_, ?_⟩
    · simp [Snake.init]
    · simp [Snake.init]
  | false => exact ⟨g, hfalse rfl, hg⟩

theorem frame_scoreTracksLength (g : Game) (i : FrameInput) (hg : g.scoreTracksLength) :
    frame g i = some FrameResult.quit ∨
    ∃ g1 : Game, frame g i = some (FrameResult.next g1) ∧ g1.scoreTracksLength := by
  unfold frame
  split
  · exact Or.inl rfl
  · right
    obtain ⟨hl, hs⟩ := hg
    obtain ⟨hib, his⟩ := inputStep_fields g i
    have hne : (inputStep g i).snake.body ≠ [] := by
      rw [hib]
      exact ne_nil_of_three_le g.snake.body hl
    obtain ⟨ga, hga, hlen, hscore⟩ := moveGate_fields (inputStep g i) i hne
    have hta : ga.scoreTracksLength := by
      constructor
      · rw [hlen, hib]
        exact hl
      · rw [hscore, his, hlen, hib]
        exact hs
    obtain ⟨gb, hgb, htb⟩ := eatingStep_scoreTracksLength ga i hta
    obtain ⟨gc, hgc, htc⟩ := collisionStep_scoreTracksLength gb htb
    refine ⟨gc, ?_, htc⟩
    rw [hga]
    simp only
    rw [hgb]
    simp only
    rw [hgc]

theorem mainLoop_scoreTracksLength (inputs : List FrameInput) :
    ∀ g : Game, g.scoreTracksLength →
      ∃ g1 : Game, mainLoop g inputs = some g1 ∧ g1.scoreTracksLength := by
  induction inputs with
  | nil =>
    intro g hg
    exact ⟨g, rfl, hg⟩
  | cons i rest ih =>
    intro g hg
    rcases frame_scoreTracksLength g i hg with hq | ⟨g1, hf, hg1⟩
    · refine ⟨g, ?_, hg⟩
      simp only [mainLoop, hq]
    · obtain ⟨g2, h2, hg2⟩ := ih g1 hg1
      refine ⟨g2, ?_, hg2⟩
      simp only [mainLoop, hf]
      exact h2

/-- C16: started with score 0 and a freshly constructed snake, for every sequence of frame
inputs (keys, terminal sizes, clock readings, respawned food positions) the loop of `main`
runs every frame and ends it with `score = body length - 3`; the score is never
negative. -/
theorem score_tracks_growth (rx ry now : Int) (inputs : List FrameInput) :
    ∃ g : Game, mainLoop (Game.start rx ry now) inputs = some g ∧
      g.score = (g.snake.body.length : Int) - 3 ∧ 0 ≤ g.score := by
  have hstart : (Game.start rx ry now).scoreTracksLength := by
    constructor
    · simp [Game.start, Snake.init]
    · simp [Game.start, Snake.init]
  obtain ⟨g, hrun, hl, hs⟩ := mainLoop_scoreTracksLength inputs (Game.start rx ry now) hstart
  exact ⟨g, hrun, hs, by omega⟩

/-! ## Growth and collision -/

theorem collidedLoop_append_last (head : Coordinates) (rest : List Coordinates)
    (hne : rest ≠ []) :
    Snake.collidedLoop head (rest ++ [rest.getLast hne]) = Snake.collidedLoop head rest := by
  rw [Bool.eq_iff_iff, collidedLoop_iff, collidedLoop_iff]
  constructor
  · rintro ⟨c, hc, hxy⟩
    rcases List.mem_append.mp hc with hc1 | hc2
    · exact ⟨c, hc1, hxy⟩
    · rw [List.mem_singleton] at hc2
      exact ⟨c, hc2 ▸ List.getLast_mem hne, hxy⟩
  · rintro ⟨c, hc, hxy⟩
    exact ⟨c, List.mem_append_left _ hc, hxy⟩

/-- C17: for every body of at least two segments `grow` returns, and `collided` evaluated
on the grown snake gives the answer it gives on the snake before `grow`: the duplicated
tail cell adds no head collision. -/
theorem grow_keeps_collided (s : Snake) (hlen : 2 ≤ s.body.length) :
    ∃ (g : Snake) (b : Bool),
      s.grow = some g ∧ g.body.length = s.body.length + 1 ∧
      s.collided = some (b, s) ∧ g.collided = some (b, g) := by
  cases hb : s.body with
  | nil => rw [hb] at hlen; simp at hlen
  | cons h rest =>
    have hne : s.body ≠ [] := by rw [hb]; simp
    have hrest : rest ≠ [] := by
      intro h0
      rw [hb, h0] at hlen
      simp at hlen
    have hlast : s.body.getLast hne = rest.getLast hrest := by
      simp only [hb]
      exact List.getLast_cons hrest
    refine ⟨_, Snake.collidedLoop h rest, grow_of_ne_nil s hne, by simp [hb], ?_, ?_⟩
    · unfold Snake.collided
      rw [hb]
    · unfold Snake.collided
      simp only [hb, List.cons_append]
      rw [← collidedLoop_append_last h rest hrest]
      simp only [hb] at hlast
      rw [hlast]

/-- Witness of C17: a snake whose head sits on its third segment; the answer is true
before and after `grow`. -/
theorem grow_keeps_collided_witness :
    ∃ (g : Snake) (b : Bool),
      Snake.grow ⟨-1, 0, [⟨10, 5⟩, ⟨11, 5⟩, ⟨10, 5⟩]⟩ = some g ∧
      g.body.length = (Snake.mk (-1) 0 [⟨10, 5⟩, ⟨11, 5⟩, ⟨10, 5⟩]).body.length + 1 ∧
      Snake.collided ⟨-1, 0, [⟨10, 5⟩, ⟨11, 5⟩, ⟨10, 5⟩]⟩
        = some (b, ⟨-1, 0, [⟨10, 5⟩, ⟨11, 5⟩, ⟨10, 5⟩]⟩) ∧
      g.collided = some (b, g) :=
  grow_keeps_collided ⟨-1, 0, [⟨10, 5⟩, ⟨11, 5⟩, ⟨10, 5⟩]⟩ (by decide)

/-! ## The wrap as a torus -/

theorem newHead_back (h : Coordinates) (dx dy COLS LINES : Int)
    (hc : 2 ≤ COLS) (hl : 3 ≤ LINES)
    (hx0 : 1 ≤ h.x) (hx1 : h.x ≤ COLS - 1) (hy0 : 1 ≤ h.y) (hy1 : h.y ≤ LINES - 2)
    (hd : isUnit dx dy) :
    Snake.newHead (Snake.newHead h dx dy COLS LINES) (-dx) (-dy) COLS LINES = h := by
  rw [newHead_eq, newHead_eq]
  cases h with
  | mk x y =>
    simp only [Coordinates.mk.injEq]
    simp only at hx0 hx1 hy0 hy1
    rcases hd with ⟨h1, h2⟩ | ⟨h1, h2⟩ | ⟨h1, h2⟩ | ⟨h1, h2⟩ <;>
    subst h1 h2 <;>
    constructor <;>
    split_ifs <;> omega

/-- C18: on a terminal with `COLS >= 2` and `LINES >= 3`, for a head in the wrapped range
and a unit direction `d`, the new head of `move` with direction `d` followed by the new
head of `move` from there with direction `-d` is the original head; the same holds for
two calls of `move` on a snake whose direction is negated in between. -/
theorem wrap_is_consistent_torus (h : Coordinates) (dx dy COLS LINES : Int)
    (hc : 2 ≤ COLS) (hl : 3 ≤ LINES)
    (hx : 1 ≤ h.x ∧ h.x ≤ COLS - 1) (hy : 1 ≤ h.y ∧ h.y ≤ LINES - 2)
    (hd : isUnit dx dy) :
    Snake.newHead (Snake.newHead h dx dy COLS LINES) (-dx) (-dy) COLS LINES = h ∧
    (∀ rest : List Coordinates, ∃ s1 s2 : Snake,
      Snake.move ⟨dx, dy, h :: rest⟩ COLS LINES = some s1 ∧
      s1.getHead = some (Snake.newHead h dx dy COLS LINES) ∧
      Snake.move { s1 with x_dir := -dx, y_dir := -dy } COLS LINES = some s2 ∧
      s2.getHead = some h) := by
  have hback := newHead_back h dx dy COLS LINES hc hl hx.1 hx.2 hy.1 hy.2 hd
  refine ⟨hback, ?_⟩
  intro rest
  have hm1 := move_of_cons ⟨dx, dy, h :: rest⟩ h rest COLS LINES rfl
  have hm2 := move_of_cons
    ({ x_dir := -dx, y_dir := -dy,
       body := Snake.newHead h dx dy COLS LINES :: (h :: rest).dropLast } : Snake)
    (Snake.newHead h dx dy COLS LINES) ((h :: rest).dropLast) COLS LINES rfl
  refine ⟨_, _, hm1, ?_, hm2, ?_⟩
  · simp [Snake.getHead]
  · simp only [Snake.getHead, List.head?_cons]
    rw [hback]

/-- Witness of C18: stepping right across the far edge of an 80x24 terminal and back. -/
theorem wrap_is_consistent_torus_witness :
    Snake.newHead (Snake.newHead ⟨79, 5⟩ 1 0 80 24) (-1) (-0) 80 24 = ⟨79, 5⟩ :=
  (wrap_is_consistent_torus ⟨79, 5⟩ 1 0 80 24 (by decide) (by decide) (by decide) (by decide)
    (by decide)).1

end SnakeGame
